import Mathlib

/-!
Shallow embedding of the swarm topology manager of `hyunlabutils`
(`src/hyunlabutils/crazySAR.py`, class `CrazySAR`).

The mutable attributes `self.graph` (a list of `[node, parent]` pairs),
`self.rods` (a parallel list of 3-component integer vectors) and
`self.flap_params` (a parallel list of `(frequency, amplitude, phase)`
triples) become a `SarState` record threaded explicitly through the
helper functions `_find_leader`, `_get_parent`, `_set_parent`,
`_get_rod`, `_set_and_flip_rod`, `_get_flap_params`,
`_set_and_flip_flap_params` and through `set_leader`.

Modelling notes:
* Rod vectors and flap parameter lists in the JSON configs are
  3-element lists; they are embedded as triples.  Flap parameters are
  Python floats on which the code only ever performs negation (exact in
  IEEE arithmetic), so they are embedded as rationals.
* Python's `None` flows through `set_leader`'s temporaries whenever a
  lookup misses, so every helper takes and returns `Option`-typed node
  ids exactly like the source (`_get_parent(None)` scans the graph,
  matches nothing and returns `None`; the setters match nothing and are
  no-ops).  A write that would store a non-integer parent, or Python's
  `TypeError` from iterating `None` in `_set_and_flip_rod` /
  `_set_and_flip_flap_params`, is `PyOutcome.err`; no theorem below
  exercises those branches.
* The `while` loop of `set_leader` has no termination guarantee for
  arbitrary input, so it takes a fuel argument; exhausting the fuel is
  `PyOutcome.timeout`.  A run that diverges in Python times out at
  every fuel in the embedding.
* Python list indexing `self.rods[i]` with the session invariant
  `len(rods) = len(flap_params) = len(graph)` is embedded with `getD`;
  all theorems that reach an indexed access carry the length invariant
  as a hypothesis, under which the default is never consulted.
* The `numpy` scalar expression in `send_graph` is modelled with the
  value-based promotion semantics of NumPy < 2 that this code runs
  with: `np.uint8` / `np.int8` wrap to 8 bits, `np.int8(v) & 0xFF`
  promotes to `int16`, each shifted field is truncated to the `int16`
  width on store, and the final `np.uint32` wraps the signed 16-bit
  result modulo `2^32` (sign extension).  Under NumPy >= 2 the same
  expression raises `OverflowError` at `& 0xFF`; that failure mode is
  recorded in the claim verdicts rather than modelled separately.
* The trailing `self._find_leader()` / `self.send_graph()` calls at the
  end of `set_leader` only read the store (they update the cached
  leader handle and push the configuration over radio links); they do
  not mutate `graph` / `rods` / `flap_params` and are not part of the
  state transformer.
-/

abbrev Rod := Int × Int × Int

abbrev Flap := Rat × Rat × Rat

/-- The topology store: `self.graph`, `self.rods`, `self.flap_params`. -/
structure SarState where
  graph : List (Int × Int)
  rods : List Rod
  flap_params : List Flap
  deriving DecidableEq, Repr

/-- Outcome of running a (possibly looping) Python fragment. -/
inductive PyOutcome (α : Type) where
  | ok (a : α)
  | err
  | timeout
  deriving DecidableEq, Repr

namespace CrazySAR

/-- Index of the first `graph` entry whose node id equals `x`
(`for i, (n, parent) in enumerate(self.graph): if n == node`).
The query is `Option`-typed because the temporaries in `set_leader`
can hold Python `None`, which compares unequal to every node id. -/
def findNode : List (Int × Int) → Option Int → Option Nat
  | [], _ => none
  | p :: rest, x => if some p.1 = x then some 0 else (findNode rest x).map (· + 1)

/-- The scan of `_find_leader` over the pair list. -/
def find_leader_go : List (Int × Int) → Option Int
  | [] => none
  | p :: rest => if p.1 = p.2 then some p.1 else find_leader_go rest

/-- `_find_leader`: first node listed with itself as parent. -/
def find_leader (st : SarState) : Option Int :=
  find_leader_go st.graph

/-- `_get_parent`. -/
def get_parent (st : SarState) (x : Option Int) : Option Int :=
  (findNode st.graph x).map fun i => (st.graph.getD i (0, 0)).2

/-- `_set_parent`.  Storing a `None` parent into a located node would
leave the integer-typed model (`PyOutcome.err` at the call sites); it
is `none` here.  A missed lookup is a no-op, as in the source. -/
def set_parent (st : SarState) (x v : Option Int) : Option SarState :=
  match findNode st.graph x with
  | none => some st
  | some i =>
      v.map fun w => { st with graph := st.graph.set i ((st.graph.getD i (0, 0)).1, w) }

/-- `_get_rod`. -/
def get_rod (st : SarState) (x : Option Int) : Option Rod :=
  (findNode st.graph x).map fun i => st.rods.getD i (0, 0, 0)

/-- Componentwise negation, `[-x for x in new_rod]`. -/
def negRod (r : Rod) : Rod := (-r.1, -r.2.1, -r.2.2)

/-- `_set_and_flip_rod`.  When the node is found but the payload is
Python `None`, the comprehension `[-x for x in new_rod]` raises
`TypeError`; that branch is `none`. -/
def set_and_flip_rod (st : SarState) (x : Option Int) (newRod : Option Rod) :
    Option SarState :=
  match findNode st.graph x with
  | none => some st
  | some i => newRod.map fun r => { st with rods := st.rods.set i (negRod r) }

/-- `_get_flap_params`. -/
def get_flap_params (st : SarState) (x : Option Int) : Option Flap :=
  (findNode st.graph x).map fun i => st.flap_params.getD i (0, 0, 0)

/-- `(frequency, -amplitude, phase)`. -/
def flipFlap (f : Flap) : Flap := (f.1, -f.2.1, f.2.2)

/-- `_set_and_flip_flap_params`; `none` on the `TypeError` branch. -/
def set_and_flip_flap_params (st : SarState) (x : Option Int) (newFlap : Option Flap) :
    Option SarState :=
  match findNode st.graph x with
  | none => some st
  | some i => newFlap.map fun f => { st with flap_params := st.flap_params.set i (flipFlap f) }

/-- The `while temp1 != prev_leader_node` loop of `set_leader`,
with explicit fuel.  Loop-carried variables in source order:
`temp1`, `temp2`, `temp_rod1`, `temp_flap_params1`. -/
def slLoop (prev : Option Int) :
    Nat → Option Int → Option Int → Option Rod → Option Flap → SarState →
    PyOutcome SarState
  | 0, _, _, _, _, _ => .timeout
  | fuel + 1, temp1, temp2, tempRod1, tempFlap1, st =>
    if temp1 = prev then .ok st
    else
      let temp3 := get_parent st temp2
      match set_parent st temp2 temp1 with
      | none => .err
      | some st1 =>
        let tempRod2 := get_rod st1 temp2
        match set_and_flip_rod st1 temp2 tempRod1 with
        | none => .err
        | some st2 =>
          let tempFlap2 := get_flap_params st2 temp2
          match set_and_flip_flap_params st2 temp2 tempFlap1 with
          | none => .err
          | some st3 => slLoop prev fuel temp2 temp3 tempRod2 tempFlap2 st3

/-- `set_leader(self, leader_node)`, as a transformer of the topology
store.  Reads and writes are sequenced exactly as in the source. -/
def set_leader (fuel : Nat) (st : SarState) (leaderNode : Int) : PyOutcome SarState :=
  let prev := find_leader st
  if some leaderNode = prev then .ok st
  else
    let temp1 := get_parent st (some leaderNode)
    match set_parent st (some leaderNode) (some leaderNode) with
    | none => .err
    | some st1 =>
      let temp2 := get_parent st1 temp1
      match set_parent st1 temp1 (some leaderNode) with
      | none => .err
      | some st2 =>
        let tempRod1 := get_rod st2 temp1
        match set_and_flip_rod st2 temp1 (get_rod st2 (some leaderNode)) with
        | none => .err
        | some st3 =>
          let tempFlap1 := get_flap_params st3 temp1
          match set_and_flip_flap_params st3 temp1 (get_flap_params st3 (some leaderNode)) with
          | none => .err
          | some st4 => slLoop prev fuel temp1 temp2 tempRod1 tempFlap1 st4

/-- Low byte of an integer value in two's complement: the bit pattern
of `np.uint8(v)` and of `np.int8(v) & 0xFF`. -/
def byteOf (v : Int) : Nat := (v % 256).toNat

/-- Signed value of a 16-bit pattern in two's complement: the value of
an `np.int16` scalar holding bit pattern `b`. -/
def int16OfBits (b : Nat) : Int :=
  if b % 65536 < 32768 then (b % 65536 : Int) else (b % 65536 : Int) - 65536

/-- `np.uint32` applied to an integer scalar value: wraps modulo
`2^32`, so a negative `int16` value sign-extends into bits 16-31. -/
def uint32Of (v : Int) : Nat := (v % 4294967296).toNat

/-- The packed configuration word built in `send_graph`:
`np.uint32((np.uint8(node) & 0x0F) | ((np.uint8(parent) & 0x0F) << 4) |
((np.int8(rod[0]) & 0xFF) << 8) | ((np.int8(rod[1]) & 0xFF) << 16) |
((np.int8(rod[2]) & 0xFF) << 24))`, evaluated with the value-based
scalar promotion of NumPy < 2, the semantics this code runs with:
`np.uint8(_) & 0x0F` and its `<< 4` stay `uint8` (8-bit patterns);
`np.int8(v) & 0xFF` promotes to `int16` because
`promote_types(int8, uint8) = int16`, so each shifted rod field is
computed in C `int` and then truncated to the low 16 bits on the
`int16` store (the `% 65536` below) — wiping the `<< 16` and `<< 24`
fields to 0; the `|` chain promotes to `int16`, and the final
`np.uint32` converts the signed 16-bit value, sign-extending into bits
16-31 whenever the `rod[0]` byte is at least 128.  Under NumPy >= 2,
NEP 50 weak promotion instead raises `OverflowError` at
`np.int8(v) & 0xFF` (255 is out of bounds for `int8`), so `send_graph`
cannot produce a word at all; that failure mode is recorded in the
claim verdicts and not modelled as a second semantics. -/
def config_word (node parent : Int) (rod : Rod) : Nat :=
  uint32Of (int16OfBits
    ((((byteOf node &&& 0x0F) |||
        (((byteOf parent &&& 0x0F) <<< 4) % 256)) |||
        (((byteOf rod.1 &&& 0xFF) <<< 8) % 65536)) |||
      (((byteOf rod.2.1 &&& 0xFF) <<< 16) % 65536) |||
      (((byteOf rod.2.2 &&& 0xFF) <<< 24) % 65536)))

/-- A byte reinterpreted as a signed two's-complement value. -/
def sbyte (b : Nat) : Int := if b < 128 then (b : Int) else (b : Int) - 256

/-- Modelled from the spec: decoding of the packed word (the firmware
side decoder is outside the repository).  Per the spec's layout,
bits 0-3 are the node id, bits 4-7 the parent id, bits 8-15 / 16-23 /
24-31 the rod components as signed bytes. -/
def decode_word (w : Nat) : Int × Int × Rod :=
  ((w % 16 : Nat), ((w / 16) % 16 : Nat),
    (sbyte ((w / 256) % 256), sbyte ((w / 65536) % 256), sbyte ((w / 16777216) % 256)))

/-! ### Arithmetic of the packed configuration word -/

lemma lor_shiftLeft_eq_add (a b k : Nat) (h : a < 2 ^ k) :
    a ||| b <<< k = a + 2 ^ k * b := by
  apply Nat.eq_of_testBit_eq
  intro i
  rcases Nat.lt_or_ge i k with hik | hik
  · rw [Nat.testBit_lor, Nat.testBit_shiftLeft]
    have h2 : (a + 2 ^ k * b).testBit i = ((a + 2 ^ k * b) % 2 ^ k).testBit i := by
      rw [Nat.testBit_mod_two_pow]
      simp [hik]
    rw [h2, Nat.add_mul_mod_self_left, Nat.mod_eq_of_lt h]
    simp [Nat.not_le.mpr hik]
  · obtain ⟨j, rfl⟩ : ∃ j, i = k + j := ⟨i - k, by omega⟩
    rw [Nat.testBit_lor, Nat.testBit_shiftLeft]
    have ha : a.testBit (k + j) = false :=
      Nat.testBit_lt_two_pow
        (lt_of_lt_of_le h (Nat.pow_le_pow_right (by norm_num) (by omega)))
    have hdiv : (a + 2 ^ k * b) / 2 ^ k = b := by
      rw [Nat.mul_comm, Nat.add_mul_div_right _ _ (Nat.two_pow_pos k),
        Nat.div_eq_of_lt h, Nat.zero_add]
    have hx : (a + 2 ^ k * b).testBit (k + j) = b.testBit j := by
      rw [← Nat.testBit_shiftRight, Nat.shiftRight_eq_div_pow, hdiv]
    rw [hx, ha]
    simp

lemma byteOf_and_fifteen (v : Int) : byteOf v &&& 15 = (v % 16).toNat := by
  have h := Nat.and_pow_two_sub_one_eq_mod (byteOf v) 4
  norm_num at h
  rw [h]
  unfold byteOf
  omega

lemma byteOf_and_255 (v : Int) : byteOf v &&& 255 = (v % 256).toNat := by
  have h := Nat.and_pow_two_sub_one_eq_mod (byteOf v) 8
  norm_num at h
  rw [h]
  unfold byteOf
  omega

/-- The packed word, evaluated: the node and parent ids and the rod.x
byte occupy bits 0-15; the rod.y and rod.z fields are truncated away
by the `int16` intermediates, and a rod.x byte of at least 128
sign-extends all-ones into bits 16-31. -/
lemma config_word_eq (node parent x y z : Int) :
    config_word node parent (x, y, z) =
      (node % 16).toNat + 16 * (parent % 16).toNat + 256 * (x % 256).toNat +
        (if (x % 256).toNat < 128 then 0 else 4294901760) := by
  unfold config_word
  rw [byteOf_and_fifteen, byteOf_and_fifteen, byteOf_and_255, byteOf_and_255, byteOf_and_255]
  have hp : ((parent % 16).toNat <<< 4) % 256 = (parent % 16).toNat <<< 4 := by
    rw [Nat.shiftLeft_eq]
    omega
  have hx : ((x % 256).toNat <<< 8) % 65536 = (x % 256).toNat <<< 8 := by
    rw [Nat.shiftLeft_eq]
    omega
  have hy : ((y % 256).toNat <<< 16) % 65536 = 0 := by
    rw [Nat.shiftLeft_eq]
    omega
  have hz : ((z % 256).toNat <<< 24) % 65536 = 0 := by
    rw [Nat.shiftLeft_eq]
    omega
  rw [hp, hx, hy, hz, Nat.or_zero, Nat.or_zero]
  rw [lor_shiftLeft_eq_add _ _ 4 (by omega)]
  rw [lor_shiftLeft_eq_add _ _ 8 (by omega)]
  unfold uint32Of int16OfBits
  split <;> split <;> omega

/-- Node ids listed in the topology. -/
def nodesOf (st : SarState) : List Int := st.graph.map Prod.fst

/-- Session well-formedness: node ids are listed once and the three
parallel lists have equal length (the JSON configs provide one rod and
one flap triple per graph entry). -/
structure Wf (st : SarState) : Prop where
  nodup : (nodesOf st).Nodup
  rlen : st.rods.length = st.graph.length
  flen : st.flap_params.length = st.graph.length

/-- The parent chain from a node down to the self-parenting root,
root included: the spec's "following `parent` from any node reaches
`r` in a finite number of steps". -/
inductive Chain (st : SarState) : Int → List Int → Prop where
  | root : ∀ n, get_parent st (some n) = some n → Chain st n [n]
  | step : ∀ n p l, get_parent st (some n) = some p → n ≠ p → Chain st p l →
      Chain st n (n :: l)

/-- A valid topology in the sense of the spec's invariants I1-I3:
well-formed parallel lists, every node reaches a root along a
cycle-free parent chain, and the self-parenting node is unique. -/
structure ValidTopo (st : SarState) : Prop where
  wf : Wf st
  reach : ∀ n ∈ nodesOf st, ∃ l, Chain st n l ∧ l.Nodup
  unique_root : ∀ a b, get_parent st (some a) = some a →
      get_parent st (some b) = some b → a = b


/-! ### Lookup and update lemmas for the parallel-list store -/

lemma getD_set_self {α : Type} (l : List α) (i : Nat) (v d : α) (h : i < l.length) :
    (l.set i v).getD i d = v := by
  induction l generalizing i with
  | nil => simp at h
  | cons a rest ih =>
      cases i with
      | zero => rfl
      | succ j => simpa using ih j (by simpa using h)

lemma getD_set_ne {α : Type} (l : List α) (i j : Nat) (v d : α) (h : i ≠ j) :
    (l.set i v).getD j d = l.getD j d := by
  induction l generalizing i j with
  | nil => rfl
  | cons a rest ih =>
      cases i with
      | zero => cases j with
        | zero => exact absurd rfl h
        | succ j' => rfl
      | succ i' => cases j with
        | zero => rfl
        | succ j' => simpa using ih i' j' (by omega)

lemma findNode_query_none (g : List (Int × Int)) : findNode g none = none := by
  induction g with
  | nil => rfl
  | cons p rest ih => simp [findNode, ih]

lemma findNode_eq_none_iff (g : List (Int × Int)) (a : Int) :
    findNode g (some a) = none ↔ a ∉ g.map Prod.fst := by
  induction g with
  | nil => simp [findNode]
  | cons p rest ih =>
      by_cases h : p.1 = a
      · simp [findNode, h]
      · simp [findNode, h, ih, Ne.symm h]

lemma findNode_spec (g : List (Int × Int)) (a : Int) (i : Nat)
    (h : findNode g (some a) = some i) : i < g.length ∧ (g.getD i (0, 0)).1 = a := by
  induction g generalizing i with
  | nil => simp [findNode] at h
  | cons p rest ih =>
      by_cases hp : p.1 = a
      · simp [findNode, hp] at h
        subst h
        simpa using hp
      · simp [findNode, hp] at h
        obtain ⟨j, hj, rfl⟩ := h
        obtain ⟨h1, h2⟩ := ih j hj
        exact ⟨by simpa using h1, by simpa using h2⟩

lemma findNode_congr {g₁ g₂ : List (Int × Int)}
    (h : g₁.map Prod.fst = g₂.map Prod.fst) (x : Option Int) :
    findNode g₁ x = findNode g₂ x := by
  induction g₁ generalizing g₂ with
  | nil =>
      have : g₂ = [] := List.map_eq_nil_iff.mp h.symm
      subst this; rfl
  | cons p rest ih =>
      cases g₂ with
      | nil => simp at h
      | cons q rest₂ =>
          simp only [List.map_cons, List.cons.injEq] at h
          simp [findNode, h.1, ih h.2]

lemma mem_of_findNode_some {g : List (Int × Int)} {a : Int} {i : Nat}
    (h : findNode g (some a) = some i) : a ∈ g.map Prod.fst := by
  by_contra hmem
  rw [← findNode_eq_none_iff] at hmem
  rw [h] at hmem
  cases hmem

lemma findNode_isSome_of_mem {g : List (Int × Int)} {a : Int}
    (h : a ∈ g.map Prod.fst) : ∃ i, findNode g (some a) = some i := by
  cases hf : findNode g (some a) with
  | none => exact absurd ((findNode_eq_none_iff g a).mp hf) (by simpa using h)
  | some i => exact ⟨i, rfl⟩

lemma set_fst_map (g : List (Int × Int)) (i : Nat) (c : Int) :
    (g.set i ((g.getD i (0, 0)).1, c)).map Prod.fst = g.map Prod.fst := by
  induction g generalizing i with
  | nil => rfl
  | cons p rest ih =>
      cases i with
      | zero => rfl
      | succ j => simpa using ih j

lemma mem_of_get_parent {st : SarState} {a b : Int}
    (h : get_parent st (some a) = some b) : a ∈ nodesOf st := by
  unfold get_parent at h
  cases hf : findNode st.graph (some a) with
  | none => rw [hf] at h; cases h
  | some i => exact mem_of_findNode_some hf

/-! ### Total forms of the update helpers on integer arguments -/

/-- `_set_parent` at an integer node id (always returns in Python). -/
def setParent! (st : SarState) (d c : Int) : SarState :=
  match findNode st.graph (some d) with
  | none => st
  | some i => { st with graph := st.graph.set i ((st.graph.getD i (0, 0)).1, c) }

/-- `_set_and_flip_rod` at an integer node id and integer rod. -/
def setRod! (st : SarState) (d : Int) (r : Rod) : SarState :=
  match findNode st.graph (some d) with
  | none => st
  | some i => { st with rods := st.rods.set i (negRod r) }

/-- `_set_and_flip_flap_params` at an integer node id and triple. -/
def setFlap! (st : SarState) (d : Int) (f : Flap) : SarState :=
  match findNode st.graph (some d) with
  | none => st
  | some i => { st with flap_params := st.flap_params.set i (flipFlap f) }

lemma set_parent_some (st : SarState) (d c : Int) :
    set_parent st (some d) (some c) = some (setParent! st d c) := by
  unfold set_parent setParent!
  cases h : findNode st.graph (some d) <;> rfl

lemma set_and_flip_rod_some (st : SarState) (d : Int) (r : Rod) :
    set_and_flip_rod st (some d) (some r) = some (setRod! st d r) := by
  unfold set_and_flip_rod setRod!
  cases h : findNode st.graph (some d) <;> rfl

lemma set_and_flip_flap_params_some (st : SarState) (d : Int) (f : Flap) :
    set_and_flip_flap_params st (some d) (some f) = some (setFlap! st d f) := by
  unfold set_and_flip_flap_params setFlap!
  cases h : findNode st.graph (some d) <;> rfl

lemma setParent!_graph_fst (st : SarState) (d c : Int) :
    (setParent! st d c).graph.map Prod.fst = st.graph.map Prod.fst := by
  unfold setParent!
  cases h : findNode st.graph (some d) with
  | none => rfl
  | some i => simpa using set_fst_map st.graph i c

lemma setParent!_rods (st : SarState) (d c : Int) : (setParent! st d c).rods = st.rods := by
  unfold setParent!
  cases h : findNode st.graph (some d) <;> rfl

lemma setParent!_flaps (st : SarState) (d c : Int) :
    (setParent! st d c).flap_params = st.flap_params := by
  unfold setParent!
  cases h : findNode st.graph (some d) <;> rfl

lemma setParent!_graph_len (st : SarState) (d c : Int) :
    (setParent! st d c).graph.length = st.graph.length := by
  unfold setParent!
  cases h : findNode st.graph (some d) <;> simp

lemma setRod!_graph (st : SarState) (d : Int) (r : Rod) : (setRod! st d r).graph = st.graph := by
  unfold setRod!
  cases h : findNode st.graph (some d) <;> rfl

lemma setRod!_flaps (st : SarState) (d : Int) (r : Rod) :
    (setRod! st d r).flap_params = st.flap_params := by
  unfold setRod!
  cases h : findNode st.graph (some d) <;> rfl

lemma setRod!_rods_len (st : SarState) (d : Int) (r : Rod) :
    (setRod! st d r).rods.length = st.rods.length := by
  unfold setRod!
  cases h : findNode st.graph (some d) <;> simp

lemma setFlap!_graph (st : SarState) (d : Int) (f : Flap) : (setFlap! st d f).graph = st.graph := by
  unfold setFlap!
  cases h : findNode st.graph (some d) <;> rfl

lemma setFlap!_rods (st : SarState) (d : Int) (f : Flap) : (setFlap! st d f).rods = st.rods := by
  unfold setFlap!
  cases h : findNode st.graph (some d) <;> rfl

lemma setFlap!_flaps_len (st : SarState) (d : Int) (f : Flap) :
    (setFlap! st d f).flap_params.length = st.flap_params.length := by
  unfold setFlap!
  cases h : findNode st.graph (some d) <;> simp

lemma get_parent_setParent!_self {st : SarState} {d : Int} (c : Int)
    (h : d ∈ nodesOf st) : get_parent (setParent! st d c) (some d) = some c := by
  obtain ⟨i, hi⟩ := findNode_isSome_of_mem h
  obtain ⟨hlen, _⟩ := findNode_spec _ _ _ hi
  unfold get_parent
  rw [findNode_congr (setParent!_graph_fst st d c) (some d), hi]
  simp only [Option.map_some']
  unfold setParent!
  rw [hi]
  simp [List.getElem?_set_self hlen]

lemma get_parent_setParent!_ne {st : SarState} {d b : Int} (c : Int) (hne : b ≠ d) :
    get_parent (setParent! st d c) (some b) = get_parent st (some b) := by
  unfold get_parent
  rw [findNode_congr (setParent!_graph_fst st d c) (some b)]
  cases hb : findNode st.graph (some b) with
  | none => rfl
  | some j =>
      simp only [Option.map_some']
      unfold setParent!
      cases hd : findNode st.graph (some d) with
      | none => rfl
      | some i =>
          obtain ⟨hleni, hfsti⟩ := findNode_spec _ _ _ hd
          obtain ⟨hlenj, hfstj⟩ := findNode_spec _ _ _ hb
          have hij : i ≠ j := by
            intro h'
            subst h'
            rw [hfsti] at hfstj
            exact hne hfstj.symm
          simp [List.getElem?_set_ne hij]

lemma get_rod_setParent! (st : SarState) (d c : Int) (x : Option Int) :
    get_rod (setParent! st d c) x = get_rod st x := by
  unfold get_rod
  rw [findNode_congr (setParent!_graph_fst st d c) x, setParent!_rods]

lemma get_flap_setParent! (st : SarState) (d c : Int) (x : Option Int) :
    get_flap_params (setParent! st d c) x = get_flap_params st x := by
  unfold get_flap_params
  rw [findNode_congr (setParent!_graph_fst st d c) x, setParent!_flaps]

lemma get_parent_setRod! (st : SarState) (d : Int) (r : Rod) (x : Option Int) :
    get_parent (setRod! st d r) x = get_parent st x := by
  unfold get_parent
  rw [setRod!_graph]

lemma get_parent_setFlap! (st : SarState) (d : Int) (f : Flap) (x : Option Int) :
    get_parent (setFlap! st d f) x = get_parent st x := by
  unfold get_parent
  rw [setFlap!_graph]

lemma get_rod_setFlap! (st : SarState) (d : Int) (f : Flap) (x : Option Int) :
    get_rod (setFlap! st d f) x = get_rod st x := by
  unfold get_rod
  rw [setFlap!_graph, setFlap!_rods]

lemma get_flap_setRod! (st : SarState) (d : Int) (r : Rod) (x : Option Int) :
    get_flap_params (setRod! st d r) x = get_flap_params st x := by
  unfold get_flap_params
  rw [setRod!_graph, setRod!_flaps]

lemma get_rod_setRod!_self {st : SarState} {d : Int} (r : Rod)
    (h : d ∈ nodesOf st) (hlen : st.rods.length = st.graph.length) :
    get_rod (setRod! st d r) (some d) = some (negRod r) := by
  obtain ⟨i, hi⟩ := findNode_isSome_of_mem h
  obtain ⟨hilen, _⟩ := findNode_spec _ _ _ hi
  unfold get_rod
  rw [findNode_congr (by rw [setRod!_graph] :
    (setRod! st d r).graph.map Prod.fst = st.graph.map Prod.fst) (some d), hi]
  simp only [Option.map_some']
  unfold setRod!
  rw [hi]
  simp [List.getElem?_set_self (show i < st.rods.length by omega)]

lemma get_rod_setRod!_ne {st : SarState} {d b : Int} (r : Rod) (hne : b ≠ d) :
    get_rod (setRod! st d r) (some b) = get_rod st (some b) := by
  unfold get_rod
  rw [findNode_congr (by rw [setRod!_graph] :
    (setRod! st d r).graph.map Prod.fst = st.graph.map Prod.fst) (some b)]
  cases hb : findNode st.graph (some b) with
  | none => rfl
  | some j =>
      simp only [Option.map_some']
      unfold setRod!
      cases hd : findNode st.graph (some d) with
      | none => rfl
      | some i =>
          obtain ⟨hleni, hfsti⟩ := findNode_spec _ _ _ hd
          obtain ⟨hlenj, hfstj⟩ := findNode_spec _ _ _ hb
          have hij : i ≠ j := by
            intro h'
            subst h'
            rw [hfsti] at hfstj
            exact hne hfstj.symm
          simp [List.getElem?_set_ne hij]

lemma get_flap_setFlap!_self {st : SarState} {d : Int} (f : Flap)
    (h : d ∈ nodesOf st) (hlen : st.flap_params.length = st.graph.length) :
    get_flap_params (setFlap! st d f) (some d) = some (flipFlap f) := by
  obtain ⟨i, hi⟩ := findNode_isSome_of_mem h
  obtain ⟨hilen, _⟩ := findNode_spec _ _ _ hi
  unfold get_flap_params
  rw [findNode_congr (by rw [setFlap!_graph] :
    (setFlap! st d f).graph.map Prod.fst = st.graph.map Prod.fst) (some d), hi]
  simp only [Option.map_some']
  unfold setFlap!
  rw [hi]
  simp [List.getElem?_set_self (show i < st.flap_params.length by omega)]

lemma get_flap_setFlap!_ne {st : SarState} {d b : Int} (f : Flap) (hne : b ≠ d) :
    get_flap_params (setFlap! st d f) (some b) = get_flap_params st (some b) := by
  unfold get_flap_params
  rw [findNode_congr (by rw [setFlap!_graph] :
    (setFlap! st d f).graph.map Prod.fst = st.graph.map Prod.fst) (some b)]
  cases hb : findNode st.graph (some b) with
  | none => rfl
  | some j =>
      simp only [Option.map_some']
      unfold setFlap!
      cases hd : findNode st.graph (some d) with
      | none => rfl
      | some i =>
          obtain ⟨hleni, hfsti⟩ := findNode_spec _ _ _ hd
          obtain ⟨hlenj, hfstj⟩ := findNode_spec _ _ _ hb
          have hij : i ≠ j := by
            intro h'
            subst h'
            rw [hfsti] at hfstj
            exact hne hfstj.symm
          simp [List.getElem?_set_ne hij]

/-- The per-node rewrite `set_leader` performs on each path node, in
source order: repoint the parent to `c`, store the negation of the
inherited rod `rc`, store the amplitude-flip of the inherited flap
`fc`. -/
def applyNode (st : SarState) (d c : Int) (rc : Rod) (fc : Flap) : SarState :=
  setFlap! (setRod! (setParent! st d c) d rc) d fc

lemma applyNode_graph_fst (st : SarState) (d c : Int) (rc : Rod) (fc : Flap) :
    (applyNode st d c rc fc).graph.map Prod.fst = st.graph.map Prod.fst := by
  unfold applyNode
  rw [setFlap!_graph, setRod!_graph, setParent!_graph_fst]

lemma applyNode_nodes (st : SarState) (d c : Int) (rc : Rod) (fc : Flap) :
    nodesOf (applyNode st d c rc fc) = nodesOf st :=
  applyNode_graph_fst st d c rc fc

lemma applyNode_wf {st : SarState} (d c : Int) (rc : Rod) (fc : Flap) (h : Wf st) :
    Wf (applyNode st d c rc fc) := by
  have hg : (applyNode st d c rc fc).graph.length = st.graph.length := by
    unfold applyNode
    rw [setFlap!_graph, setRod!_graph, setParent!_graph_len]
  refine ⟨?_, ?_, ?_⟩
  · rw [applyNode_nodes]
    exact h.nodup
  · have : (applyNode st d c rc fc).rods.length = st.rods.length := by
      unfold applyNode
      rw [setFlap!_rods, setRod!_rods_len, setParent!_rods]
    rw [this, hg]
    exact h.rlen
  · have : (applyNode st d c rc fc).flap_params.length = st.flap_params.length := by
      unfold applyNode
      rw [setFlap!_flaps_len, setRod!_flaps, setParent!_flaps]
    rw [this, hg]
    exact h.flen

lemma get_parent_applyNode_self {st : SarState} {d : Int} (c : Int) (rc : Rod) (fc : Flap)
    (h : d ∈ nodesOf st) :
    get_parent (applyNode st d c rc fc) (some d) = some c := by
  unfold applyNode
  rw [get_parent_setFlap!, get_parent_setRod!]
  exact get_parent_setParent!_self c h

lemma get_parent_applyNode_ne {st : SarState} {d b : Int} (c : Int) (rc : Rod) (fc : Flap)
    (hne : b ≠ d) :
    get_parent (applyNode st d c rc fc) (some b) = get_parent st (some b) := by
  unfold applyNode
  rw [get_parent_setFlap!, get_parent_setRod!]
  exact get_parent_setParent!_ne c hne

lemma get_rod_applyNode_self {st : SarState} {d : Int} (c : Int) (rc : Rod) (fc : Flap)
    (h : d ∈ nodesOf st) (hlen : st.rods.length = st.graph.length) :
    get_rod (applyNode st d c rc fc) (some d) = some (negRod rc) := by
  unfold applyNode
  rw [get_rod_setFlap!]
  refine get_rod_setRod!_self rc ?_ ?_
  · show d ∈ nodesOf (setParent! st d c)
    unfold nodesOf
    rw [setParent!_graph_fst]
    exact h
  · rw [setParent!_rods, setParent!_graph_len]
    exact hlen

lemma get_rod_applyNode_ne {st : SarState} {d b : Int} (c : Int) (rc : Rod) (fc : Flap)
    (hne : b ≠ d) :
    get_rod (applyNode st d c rc fc) (some b) = get_rod st (some b) := by
  unfold applyNode
  rw [get_rod_setFlap!, get_rod_setRod!_ne rc hne, get_rod_setParent!]

lemma get_flap_applyNode_self {st : SarState} {d : Int} (c : Int) (rc : Rod) (fc : Flap)
    (h : d ∈ nodesOf st) (hlen : st.flap_params.length = st.graph.length) :
    get_flap_params (applyNode st d c rc fc) (some d) = some (flipFlap fc) := by
  unfold applyNode
  refine get_flap_setFlap!_self fc ?_ ?_
  · show d ∈ nodesOf (setRod! (setParent! st d c) d rc)
    unfold nodesOf
    rw [setRod!_graph, setParent!_graph_fst]
    exact h
  · rw [setRod!_flaps, setParent!_flaps, setRod!_graph, setParent!_graph_len]
    exact hlen

lemma get_flap_applyNode_ne {st : SarState} {d b : Int} (c : Int) (rc : Rod) (fc : Flap)
    (hne : b ≠ d) :
    get_flap_params (applyNode st d c rc fc) (some b) = get_flap_params st (some b) := by
  unfold applyNode
  rw [get_flap_setFlap!_ne fc hne, get_flap_setRod!, get_flap_setParent!]

end CrazySAR

namespace CrazySAR

/-! ### The path rewrite performed by the `while` loop -/

/-- Spec-level description of the walk: with carried values
`(c, rc, fc)` (previous node, its old rod, its old flap), process each
remaining path node in order, reading its old rod/flap before
overwriting — the buffering the source does with `temp_rod1` /
`temp_rod2` and `temp_flap_params1` / `temp_flap_params2`. -/
def revUpd : Int → Rod → Flap → List Int → SarState → SarState
  | _, _, _, [], st => st
  | c, rc, fc, d :: l, st =>
      revUpd d ((get_rod st (some d)).getD (0, 0, 0))
        ((get_flap_params st (some d)).getD (0, 0, 0)) l (applyNode st d c rc fc)

lemma chain_head {st : SarState} {x : Int} {l : List Int} (h : Chain st x l) :
    ∃ t, l = x :: t := by
  cases h with
  | root n hp => exact ⟨[], rfl⟩
  | step n p l hp hne hch => exact ⟨l, rfl⟩

lemma chain_mem_nodes {st : SarState} {x : Int} {l : List Int} (h : Chain st x l) :
    ∀ m ∈ l, m ∈ nodesOf st := by
  induction h with
  | root n hp =>
      intro m hm
      rw [List.mem_singleton] at hm
      subst hm
      exact mem_of_get_parent hp
  | step n p l hp hne hch ih =>
      intro m hm
      rcases List.mem_cons.mp hm with rfl | hm'
      · exact mem_of_get_parent hp
      · exact ih m hm'

lemma chain_congr {st st' : SarState} {x : Int} {l : List Int}
    (hch : Chain st x l) :
    (∀ m ∈ l, get_parent st' (some m) = get_parent st (some m)) → Chain st' x l := by
  induction hch with
  | root n hp =>
      intro hmm
      exact .root n (by rw [hmm n (List.mem_singleton_self n)]; exact hp)
  | step n p l hp hne hch ih =>
      intro hmm
      refine .step n p l ?_ hne (ih fun m hm => hmm m (List.mem_cons_of_mem _ hm))
      rw [hmm n (List.mem_cons_self _ _)]
      exact hp

lemma revUpd_frame (l : List Int) :
    ∀ (c : Int) (rc : Rod) (fc : Flap) (st : SarState) (x : Int), x ∉ l →
      get_parent (revUpd c rc fc l st) (some x) = get_parent st (some x) ∧
      get_rod (revUpd c rc fc l st) (some x) = get_rod st (some x) ∧
      get_flap_params (revUpd c rc fc l st) (some x) = get_flap_params st (some x) := by
  induction l with
  | nil => exact fun c rc fc st x _ => ⟨rfl, rfl, rfl⟩
  | cons d t ih =>
      intro c rc fc st x hx
      have hxd : x ≠ d := fun h => hx (h ▸ List.mem_cons_self d t)
      have hxt : x ∉ t := fun h => hx (List.mem_cons_of_mem d h)
      obtain ⟨h1, h2, h3⟩ := ih d ((get_rod st (some d)).getD (0, 0, 0))
        ((get_flap_params st (some d)).getD (0, 0, 0)) (applyNode st d c rc fc) x hxt
      refine ⟨?_, ?_, ?_⟩
      · simp only [revUpd]
        rw [h1, get_parent_applyNode_ne c rc fc hxd]
      · simp only [revUpd]
        rw [h2, get_rod_applyNode_ne c rc fc hxd]
      · simp only [revUpd]
        rw [h3, get_flap_applyNode_ne c rc fc hxd]

lemma revUpd_nodes (l : List Int) :
    ∀ (c : Int) (rc : Rod) (fc : Flap) (st : SarState),
      nodesOf (revUpd c rc fc l st) = nodesOf st := by
  induction l with
  | nil => exact fun _ _ _ _ => rfl
  | cons d t ih =>
      intro c rc fc st
      simp only [revUpd]
      rw [ih, applyNode_nodes]

lemma revUpd_wf (l : List Int) :
    ∀ (c : Int) (rc : Rod) (fc : Flap) (st : SarState), Wf st →
      Wf (revUpd c rc fc l st) := by
  induction l with
  | nil => exact fun _ _ _ _ h => h
  | cons d t ih =>
      intro c rc fc st hwf
      simp only [revUpd]
      exact ih _ _ _ _ (applyNode_wf d c rc fc hwf)

lemma revUpd_head {st : SarState} {d : Int} (c : Int) (rc : Rod) (fc : Flap) (t : List Int)
    (hmem : d ∈ nodesOf st) (hd : d ∉ t) (hwf : Wf st) :
    get_parent (revUpd c rc fc (d :: t) st) (some d) = some c ∧
    get_rod (revUpd c rc fc (d :: t) st) (some d) = some (negRod rc) ∧
    get_flap_params (revUpd c rc fc (d :: t) st) (some d) = some (flipFlap fc) := by
  obtain ⟨h1, h2, h3⟩ := revUpd_frame t d ((get_rod st (some d)).getD (0, 0, 0))
    ((get_flap_params st (some d)).getD (0, 0, 0)) (applyNode st d c rc fc) d hd
  refine ⟨?_, ?_, ?_⟩
  · simp only [revUpd]
    rw [h1, get_parent_applyNode_self c rc fc hmem]
  · simp only [revUpd]
    rw [h2, get_rod_applyNode_self c rc fc hmem hwf.rlen]
  · simp only [revUpd]
    rw [h3, get_flap_applyNode_self c rc fc hmem hwf.flen]

lemma revUpd_pair (l : List Int) :
    ∀ (c : Int) (rc : Rod) (fc : Flap) (st : SarState), Wf st → l.Nodup →
      (∀ m ∈ l, m ∈ nodesOf st) →
      ∀ i a b, l.get? i = some a → l.get? (i + 1) = some b →
        get_parent (revUpd c rc fc l st) (some b) = some a ∧
        get_rod (revUpd c rc fc l st) (some b) =
          some (negRod ((get_rod st (some a)).getD (0, 0, 0))) ∧
        get_flap_params (revUpd c rc fc l st) (some b) =
          some (flipFlap ((get_flap_params st (some a)).getD (0, 0, 0))) := by
  induction l with
  | nil => intro _ _ _ _ _ _ _ i a b ha _; simp at ha
  | cons d t ih =>
      intro c rc fc st hwf hnd hmem i a b ha hb
      have hdt : d ∉ t := (List.nodup_cons.mp hnd).1
      cases i with
      | zero =>
          simp only [List.get?_cons_zero] at ha
          obtain rfl : d = a := by injection ha
          simp only [List.get?_cons_succ, List.get?_cons_zero] at hb
          obtain ⟨t', rfl⟩ : ∃ t', t = b :: t' := by
            cases t with
            | nil => simp at hb
            | cons x xs => injection hb with hb; exact ⟨xs, by rw [hb]⟩
          have hbmem : b ∈ nodesOf (applyNode st d c rc fc) := by
            rw [applyNode_nodes]
            exact hmem b (List.mem_cons_of_mem _ (List.mem_cons_self _ _))
          have hbt' : b ∉ t' := (List.nodup_cons.mp (List.nodup_cons.mp hnd).2).1
          have hwf' : Wf (applyNode st d c rc fc) := applyNode_wf d c rc fc hwf
          obtain ⟨h1, h2, h3⟩ := revUpd_head d
            ((get_rod st (some d)).getD (0, 0, 0))
            ((get_flap_params st (some d)).getD (0, 0, 0)) t' hbmem hbt' hwf'
          exact ⟨by simpa [revUpd] using h1, by simpa [revUpd] using h2,
            by simpa [revUpd] using h3⟩
      | succ j =>
          simp only [List.get?_cons_succ] at ha hb
          have hat : a ∈ t := List.get?_mem ha
          have had : a ≠ d := fun h => hdt (h ▸ hat)
          have hmem' : ∀ m ∈ t, m ∈ nodesOf (applyNode st d c rc fc) := by
            intro m hm
            rw [applyNode_nodes]
            exact hmem m (List.mem_cons_of_mem _ hm)
          obtain ⟨h1, h2, h3⟩ := ih d ((get_rod st (some d)).getD (0, 0, 0))
            ((get_flap_params st (some d)).getD (0, 0, 0)) (applyNode st d c rc fc)
            (applyNode_wf d c rc fc hwf) (List.nodup_cons.mp hnd).2 hmem' j a b ha hb
          refine ⟨by simpa [revUpd] using h1, ?_, ?_⟩
          · rw [show revUpd c rc fc (d :: t) st = revUpd d
              ((get_rod st (some d)).getD (0, 0, 0))
              ((get_flap_params st (some d)).getD (0, 0, 0)) t (applyNode st d c rc fc)
              from rfl, h2, get_rod_applyNode_ne c rc fc had]
          · rw [show revUpd c rc fc (d :: t) st = revUpd d
              ((get_rod st (some d)).getD (0, 0, 0))
              ((get_flap_params st (some d)).getD (0, 0, 0)) t (applyNode st d c rc fc)
              from rfl, h3, get_flap_applyNode_ne c rc fc had]

end CrazySAR

namespace CrazySAR

lemma slLoop_exit (prev : Option Int) (fuel : Nat) (t1 t2 : Option Int)
    (tr : Option Rod) (tf : Option Flap) (st : SarState) (h : t1 = prev) :
    slLoop prev (fuel + 1) t1 t2 tr tf st = .ok st := by
  simp only [slLoop, if_pos h]

lemma slLoop_step (prev : Option Int) (fuel : Nat) (c d : Int) (rc : Rod) (fc : Flap)
    (st : SarState) (hne : ¬ some c = prev) :
    slLoop prev (fuel + 1) (some c) (some d) (some rc) (some fc) st =
      slLoop prev fuel (some d) (get_parent st (some d))
        (get_rod (setParent! st d c) (some d))
        (get_flap_params (setRod! (setParent! st d c) d rc) (some d))
        (applyNode st d c rc fc) := by
  simp only [slLoop, if_neg hne, set_parent_some, set_and_flip_rod_some,
    set_and_flip_flap_params_some, applyNode]

lemma slLoop_run (l : List Int) :
    ∀ (fuel : Nat) (c d : Int) (rc : Rod) (fc : Flap) (st : SarState) (r : Int),
      Chain st d (d :: l) →
      (d :: l).Nodup →
      c ∉ d :: l →
      (d :: l).getLast (List.cons_ne_nil d l) = r →
      l.length + 2 ≤ fuel →
      slLoop (some r) fuel (some c) (some d) (some rc) (some fc) st =
        .ok (revUpd c rc fc (d :: l) st) := by
  induction l with
  | nil =>
      intro fuel c d rc fc st r hch hnd hc hlast hfuel
      have hp : get_parent st (some d) = some d := by
        cases hch with
        | root _ hp => exact hp
        | step _ p l' hp hne hch' => cases hch'
      have hcd : c ≠ d := fun h => hc (h ▸ List.mem_cons_self _ _)
      have hr : d = r := by simpa using hlast
      subst hr
      obtain ⟨f, rfl⟩ : ∃ f, fuel = f + 1 + 1 := ⟨fuel - 2, by omega⟩
      rw [slLoop_step _ _ _ _ _ _ _ (by simpa using hcd)]
      rw [slLoop_exit _ _ _ _ _ _ _ rfl]
      simp only [revUpd]
  | cons e t ih =>
      intro fuel c d rc fc st r hch hnd hc hlast hfuel
      have hinv : get_parent st (some d) = some e ∧ d ≠ e ∧ Chain st e (e :: t) := by
        cases hch with
        | step _ p _ hp hne hch' =>
            obtain ⟨t', ht⟩ := chain_head hch'
            injection ht with h1 h2
            subst h1
            subst h2
            exact ⟨hp, hne, hch'⟩
      obtain ⟨hp, hde, hch'⟩ := hinv
      have hdm : d ∈ nodesOf st := mem_of_get_parent hp
      obtain ⟨i, hi⟩ := findNode_isSome_of_mem hdm
      have hrodd : get_rod st (some d) = some (st.rods.getD i (0, 0, 0)) := by
        simp [get_rod, hi]
      have hflapd : get_flap_params st (some d) = some (st.flap_params.getD i (0, 0, 0)) := by
        simp [get_flap_params, hi]
      have hlast' : (e :: t).getLast (List.cons_ne_nil e t) = r := by
        rw [← hlast, List.getLast_cons (List.cons_ne_nil e t)]
      have hrmem : r ∈ e :: t := hlast' ▸ List.getLast_mem (List.cons_ne_nil e t)
      have hcr : ¬ some c = some r := by
        simp only [Option.some.injEq]
        exact fun h => hc (h ▸ List.mem_cons_of_mem d hrmem)
      obtain ⟨f, rfl⟩ : ∃ f, fuel = f + 1 := ⟨fuel - 1, by omega⟩
      rw [slLoop_step _ _ _ _ _ _ _ hcr]
      rw [hp, get_rod_setParent!, get_flap_setRod!, get_flap_setParent!, hrodd, hflapd]
      have hnd' : (e :: t).Nodup := (List.nodup_cons.mp hnd).2
      have hdnotin : d ∉ e :: t := (List.nodup_cons.mp hnd).1
      have hch'' : Chain (applyNode st d c rc fc) e (e :: t) :=
        chain_congr hch' fun m hm =>
          get_parent_applyNode_ne c rc fc fun h => hdnotin (h ▸ hm)
      rw [ih f d e _ _ (applyNode st d c rc fc) r hch'' hnd' hdnotin hlast'
        (by simpa using hfuel)]
      simp only [revUpd, hrodd, hflapd, Option.getD_some]

end CrazySAR

namespace CrazySAR

/-- The store produced by a successful reroot of `st` to `n` along the
old parent chain `n :: l`: the new leader's parent pointer is turned
into a self-loop and the walk rewrites each node of `l` in order. -/
def rerootResult (st : SarState) (n : Int) (l : List Int) : SarState :=
  revUpd n ((get_rod st (some n)).getD (0, 0, 0))
    ((get_flap_params st (some n)).getD (0, 0, 0)) l (setParent! st n n)

/-- The preamble of `set_leader` (everything before the `while` loop),
evaluated on a store in which the requested leader `n` is present, not
the current leader, and has parent `n1`. -/
lemma set_leader_step {st : SarState} {n n1 r : Int} (fuel : Nat)
    (rodv : Rod) (flapv : Flap)
    (hfl : find_leader st = some r) (hnr : ¬ some n = some r)
    (hp : get_parent st (some n) = some n1) (hn1 : n1 ≠ n)
    (hrodn : get_rod st (some n) = some rodv)
    (hflapn : get_flap_params st (some n) = some flapv) :
    set_leader fuel st n =
      slLoop (some r) fuel (some n1) (get_parent st (some n1))
        (get_rod st (some n1)) (get_flap_params st (some n1))
        (applyNode (setParent! st n n) n1 n rodv flapv) := by
  simp only [set_leader, hfl, if_neg hnr, hp, set_parent_some,
    get_parent_setParent!_ne n hn1, get_rod_setParent!, hrodn, set_and_flip_rod_some,
    get_flap_setRod!, get_flap_setParent!, hflapn, set_and_flip_flap_params_some,
    applyNode]

/-- Main characterisation: on a cycle-free parent chain
`n :: l` (ending at the current leader) with `n` not the leader,
`set_leader` terminates and produces exactly the path-reversed store. -/
theorem set_leader_run {st : SarState} {n : Int} {l : List Int} {fuel : Nat}
    (hch : Chain st n (n :: l)) (hnd : (n :: l).Nodup) (hl : l ≠ [])
    (hfl : find_leader st = some ((n :: l).getLast (List.cons_ne_nil n l)))
    (hfuel : l.length + 1 ≤ fuel) :
    set_leader fuel st n = .ok (rerootResult st n l) := by
  obtain ⟨n1, t, rfl⟩ : ∃ n1 t, l = n1 :: t := by
    cases l with
    | nil => exact absurd rfl hl
    | cons a b => exact ⟨a, b, rfl⟩
  have hinv : get_parent st (some n) = some n1 ∧ n ≠ n1 ∧ Chain st n1 (n1 :: t) := by
    cases hch with
    | step _ p _ hp hne hch' =>
        obtain ⟨t', ht⟩ := chain_head hch'
        injection ht with h1 h2
        subst h1
        subst h2
        exact ⟨hp, hne, hch'⟩
  obtain ⟨hp, hn1, hch'⟩ := hinv
  have hlast' : (n1 :: t).getLast (List.cons_ne_nil n1 t) =
      (n :: n1 :: t).getLast (List.cons_ne_nil n (n1 :: t)) :=
    (List.getLast_cons (List.cons_ne_nil n1 t)).symm
  have hrmem : (n :: n1 :: t).getLast (List.cons_ne_nil n (n1 :: t)) ∈ n1 :: t :=
    hlast' ▸ List.getLast_mem (List.cons_ne_nil n1 t)
  have hnnotin : n ∉ n1 :: t := (List.nodup_cons.mp hnd).1
  have hnr : ¬ some n = some ((n :: n1 :: t).getLast (List.cons_ne_nil n (n1 :: t))) := by
    simp only [Option.some.injEq]
    exact fun h => hnnotin (h ▸ hrmem)
  have hnm : n ∈ nodesOf st := mem_of_get_parent hp
  obtain ⟨j, hj⟩ := findNode_isSome_of_mem hnm
  have hrodn : get_rod st (some n) = some (st.rods.getD j (0, 0, 0)) := by
    simp [get_rod, hj]
  have hflapn : get_flap_params st (some n) = some (st.flap_params.getD j (0, 0, 0)) := by
    simp [get_flap_params, hj]
  rw [set_leader_step fuel _ _ hfl hnr hp (Ne.symm hn1) hrodn hflapn]
  have hn1m : n1 ∈ nodesOf st := chain_mem_nodes hch' n1 (List.mem_cons_self _ _)
  obtain ⟨i1, hi1⟩ := findNode_isSome_of_mem hn1m
  have hrod1 : get_rod st (some n1) = some (st.rods.getD i1 (0, 0, 0)) := by
    simp [get_rod, hi1]
  have hflap1 : get_flap_params st (some n1) = some (st.flap_params.getD i1 (0, 0, 0)) := by
    simp [get_flap_params, hi1]
  cases t with
  | nil =>
      have hp1 : get_parent st (some n1) = some n1 := by
        cases hch' with
        | root _ hq => exact hq
        | step _ p l' hq hne hch'' => cases hch''
      have hr : n1 = (n :: [n1]).getLast (List.cons_ne_nil n [n1]) := rfl
      obtain ⟨f, rfl⟩ : ∃ f, fuel = f + 1 := ⟨fuel - 1, by omega⟩
      rw [hp1, slLoop_exit _ _ _ _ _ _ _ (by rw [← hr])]
      simp only [rerootResult, revUpd, hrodn, hflapn, Option.getD_some]
  | cons e t' =>
      have hinv' : get_parent st (some n1) = some e ∧ n1 ≠ e ∧ Chain st e (e :: t') := by
        cases hch' with
        | step _ p _ hq hne hch'' =>
            obtain ⟨t'', ht⟩ := chain_head hch''
            injection ht with h1 h2
            subst h1
            subst h2
            exact ⟨hq, hne, hch''⟩
      obtain ⟨hp1, hn1e, hch''⟩ := hinv'
      have hndtail : (n1 :: e :: t').Nodup := (List.nodup_cons.mp hnd).2
      have hn1notin : n1 ∉ e :: t' := (List.nodup_cons.mp hndtail).1
      have hch4 : Chain (applyNode (setParent! st n n) n1 n (st.rods.getD j (0, 0, 0))
          (st.flap_params.getD j (0, 0, 0))) e (e :: t') := by
        refine chain_congr hch'' fun m hm => ?_
        have hmn1 : m ≠ n1 := fun h => hn1notin (h ▸ hm)
        have hmn : m ≠ n := fun h => hnnotin (h ▸ List.mem_cons_of_mem _ hm)
        rw [get_parent_applyNode_ne _ _ _ hmn1, get_parent_setParent!_ne n hmn]
      have hlast'' : (e :: t').getLast (List.cons_ne_nil e t') =
          (n :: n1 :: e :: t').getLast (List.cons_ne_nil n (n1 :: e :: t')) := by
        rw [← hlast', List.getLast_cons (List.cons_ne_nil e t')]
      rw [hp1, hrod1, hflap1]
      rw [slLoop_run t' fuel n1 e _ _ _ _ hch4 hndtail.of_cons hn1notin hlast''
        (by simp only [List.length_cons] at hfuel; omega)]
      simp only [rerootResult, revUpd, get_rod_setParent!, get_flap_setParent!,
        hrod1, hflap1, hrodn, hflapn, Option.getD_some]

end CrazySAR

namespace CrazySAR

/-! ### `_find_leader` and root facts -/

lemma getD_mem {α : Type} (l : List α) (i : Nat) (d : α) (h : i < l.length) :
    l.getD i d ∈ l := by
  induction l generalizing i with
  | nil => simp at h
  | cons a t ih =>
      cases i with
      | zero => exact List.mem_cons_self _ _
      | succ j => exact List.mem_cons_of_mem _ (ih j (by simpa using h))

lemma go_mem_pair : ∀ (g : List (Int × Int)) (y : Int),
    find_leader_go g = some y → (y, y) ∈ g := by
  intro g
  induction g with
  | nil => intro y h; cases h
  | cons p rest ih =>
      intro y h
      by_cases hp : p.1 = p.2
      · simp only [find_leader_go, if_pos hp] at h
        injection h with h
        have : p = (y, y) := Prod.ext h (by rw [← hp, h])
        exact this ▸ List.mem_cons_self _ _
      · simp only [find_leader_go, if_neg hp] at h
        exact List.mem_cons_of_mem _ (ih y h)

lemma go_exists : ∀ (g : List (Int × Int)), (∃ p ∈ g, p.1 = p.2) →
    ∃ y, find_leader_go g = some y := by
  intro g
  induction g with
  | nil => rintro ⟨p, hp, _⟩; cases hp
  | cons q rest ih =>
      rintro ⟨p, hp, hpeq⟩
      by_cases hq : q.1 = q.2
      · exact ⟨q.1, by simp [find_leader_go, hq]⟩
      · rcases List.mem_cons.mp hp with rfl | hp'
        · exact absurd hpeq hq
        · obtain ⟨y, hy⟩ := ih ⟨p, hp', hpeq⟩
          exact ⟨y, by simp [find_leader_go, hq, hy]⟩

lemma find_leader_mem {st : SarState} {r : Int} (h : find_leader st = some r) :
    r ∈ nodesOf st := by
  have hall : (r, r) ∈ st.graph := go_mem_pair st.graph r h
  exact List.mem_map_of_mem Prod.fst hall

lemma get_parent_pair {st : SarState} {a b : Int}
    (h : get_parent st (some a) = some b) : (a, b) ∈ st.graph := by
  unfold get_parent at h
  cases hf : findNode st.graph (some a) with
  | none => rw [hf] at h; cases h
  | some i =>
      rw [hf] at h
      simp only [Option.map_some'] at h
      injection h with h
      obtain ⟨hlen, hfst⟩ := findNode_spec _ _ _ hf
      have hmem : st.graph.getD i (0, 0) ∈ st.graph := getD_mem _ _ _ hlen
      have heq : st.graph.getD i (0, 0) = (a, b) := Prod.ext hfst h
      rwa [heq] at hmem

lemma pair_mem_get_parent {st : SarState} (hwf : Wf st) {a b : Int}
    (hmem : (a, b) ∈ st.graph) : get_parent st (some a) = some b := by
  have ham : a ∈ nodesOf st := List.mem_map_of_mem Prod.fst hmem
  obtain ⟨i, hi⟩ := findNode_isSome_of_mem ham
  obtain ⟨hlen, hfst⟩ := findNode_spec _ _ _ hi
  have hq : st.graph.getD i (0, 0) ∈ st.graph := getD_mem _ _ _ hlen
  have heq : st.graph.getD i (0, 0) = (a, b) :=
    List.inj_on_of_nodup_map hwf.nodup hq hmem hfst
  unfold get_parent
  rw [hi]
  simp only [Option.map_some']
  rw [heq]

lemma find_leader_eq {st : SarState} (hv : ValidTopo st) {r : Int}
    (hroot : get_parent st (some r) = some r) : find_leader st = some r := by
  have hpair : (r, r) ∈ st.graph := get_parent_pair hroot
  obtain ⟨y, hy⟩ := go_exists st.graph ⟨(r, r), hpair, rfl⟩
  have hyp : (y, y) ∈ st.graph := go_mem_pair st.graph y hy
  have hyroot : get_parent st (some y) = some y := pair_mem_get_parent hv.wf hyp
  have hyr : y = r := hv.unique_root y r hyroot hroot
  unfold find_leader
  rw [hy, hyr]

lemma chain_last {st : SarState} {x : Int} {l : List Int} (h : Chain st x l) :
    ∀ (hne : l ≠ []), get_parent st (some (l.getLast hne)) = some (l.getLast hne) := by
  induction h with
  | root n hp => intro h'; simpa using hp
  | step n p l hp hne hch ih =>
      intro h'
      have hlne : l ≠ [] := by
        obtain ⟨t, ht⟩ := chain_head hch
        simp [ht]
      rw [List.getLast_cons hlne]
      exact ih hlne

/-! ### Behaviour on an absent node id: the walk never terminates -/

lemma slLoop_stuck (r : Int) (st : SarState) :
    ∀ fuel, slLoop (some r) fuel none none none none st = .timeout := by
  intro fuel
  induction fuel with
  | zero => rfl
  | succ f ih =>
      simp only [slLoop, if_neg (by simp : ¬ (none : Option Int) = some r),
        get_parent, findNode_query_none, Option.map_none', set_parent,
        get_rod, set_and_flip_rod, get_flap_params, set_and_flip_flap_params]
      exact ih

lemma set_leader_absent {st : SarState} {r x : Int}
    (hfl : find_leader st = some r) (hx : x ∉ nodesOf st) :
    ∀ fuel, set_leader fuel st x = .timeout := by
  intro fuel
  have hxr : ¬ some x = some r := by
    simp only [Option.some.injEq]
    intro h
    subst h
    exact hx (find_leader_mem hfl)
  have hfind : findNode st.graph (some x) = none := (findNode_eq_none_iff _ _).mpr hx
  simp only [set_leader, hfl, if_neg hxr, get_parent, hfind, Option.map_none',
    set_parent, findNode_query_none, get_rod, set_and_flip_rod, get_flap_params,
    set_and_flip_flap_params]
  exact slLoop_stuck r st fuel

end CrazySAR

namespace CrazySAR

/-! ### Pointwise description of the rerooted store -/

lemma setParent!_wf {st : SarState} (d c : Int) (hwf : Wf st) : Wf (setParent! st d c) := by
  refine ⟨?_, ?_, ?_⟩
  · show ((setParent! st d c).graph.map Prod.fst).Nodup
    rw [setParent!_graph_fst]
    exact hwf.nodup
  · rw [setParent!_rods, setParent!_graph_len]
    exact hwf.rlen
  · rw [setParent!_flaps, setParent!_graph_len]
    exact hwf.flen

lemma nodesOf_setParent! (st : SarState) (d c : Int) :
    nodesOf (setParent! st d c) = nodesOf st :=
  setParent!_graph_fst st d c

lemma rerootResult_nodes (st : SarState) (n : Int) (l : List Int) :
    nodesOf (rerootResult st n l) = nodesOf st := by
  unfold rerootResult
  rw [revUpd_nodes, nodesOf_setParent!]

lemma rerootResult_wf {st : SarState} (n : Int) (l : List Int) (hwf : Wf st) :
    Wf (rerootResult st n l) :=
  revUpd_wf l _ _ _ _ (setParent!_wf n n hwf)

lemma rerootResult_new_leader {st : SarState} {n : Int} {l : List Int}
    (hnm : n ∈ nodesOf st) (hnl : n ∉ l) :
    get_parent (rerootResult st n l) (some n) = some n ∧
    get_rod (rerootResult st n l) (some n) = get_rod st (some n) ∧
    get_flap_params (rerootResult st n l) (some n) = get_flap_params st (some n) := by
  obtain ⟨h1, h2, h3⟩ := revUpd_frame l n ((get_rod st (some n)).getD (0, 0, 0))
    ((get_flap_params st (some n)).getD (0, 0, 0)) (setParent! st n n) n hnl
  refine ⟨?_, ?_, ?_⟩
  · exact h1.trans (get_parent_setParent!_self n hnm)
  · exact h2.trans (get_rod_setParent! st n n (some n))
  · exact h3.trans (get_flap_setParent! st n n (some n))

lemma rerootResult_frame {st : SarState} {n : Int} {l : List Int} (x : Int)
    (hxn : x ≠ n) (hxl : x ∉ l) :
    get_parent (rerootResult st n l) (some x) = get_parent st (some x) ∧
    get_rod (rerootResult st n l) (some x) = get_rod st (some x) ∧
    get_flap_params (rerootResult st n l) (some x) = get_flap_params st (some x) := by
  obtain ⟨h1, h2, h3⟩ := revUpd_frame l n ((get_rod st (some n)).getD (0, 0, 0))
    ((get_flap_params st (some n)).getD (0, 0, 0)) (setParent! st n n) x hxl
  refine ⟨?_, ?_, ?_⟩
  · exact h1.trans (get_parent_setParent!_ne n hxn)
  · exact h2.trans (get_rod_setParent! st n n (some x))
  · exact h3.trans (get_flap_setParent! st n n (some x))

lemma rerootResult_edges {st : SarState} {n : Int} {l : List Int}
    (hwf : Wf st) (hch : Chain st n (n :: l)) (hnd : (n :: l).Nodup) :
    ∀ i a b, (n :: l).get? i = some a → (n :: l).get? (i + 1) = some b →
      get_parent (rerootResult st n l) (some b) = some a ∧
      get_rod (rerootResult st n l) (some b) = (get_rod st (some a)).map negRod ∧
      get_flap_params (rerootResult st n l) (some b) =
        (get_flap_params st (some a)).map flipFlap := by
  intro i a b ha hb
  have hmem : ∀ m ∈ n :: l, m ∈ nodesOf st := chain_mem_nodes hch
  have hwf1 : Wf (setParent! st n n) := setParent!_wf n n hwf
  cases i with
  | zero =>
      simp only [List.get?_cons_zero] at ha
      obtain rfl : n = a := by injection ha
      simp only [List.get?_cons_succ, List.get?_cons_zero] at hb
      obtain ⟨t, rfl⟩ : ∃ t, l = b :: t := by
        cases l with
        | nil => simp at hb
        | cons x xs => injection hb with hb; exact ⟨xs, by rw [hb]⟩
      have hbm : b ∈ nodesOf (setParent! st n n) := by
        rw [nodesOf_setParent!]
        exact hmem b (List.mem_cons_of_mem _ (List.mem_cons_self _ _))
      have hbt : b ∉ t := (List.nodup_cons.mp (List.nodup_cons.mp hnd).2).1
      obtain ⟨h1, h2, h3⟩ := revUpd_head n ((get_rod st (some n)).getD (0, 0, 0))
        ((get_flap_params st (some n)).getD (0, 0, 0)) t hbm hbt hwf1
      obtain ⟨jn, hjn⟩ := findNode_isSome_of_mem (hmem n (List.mem_cons_self _ _))
      have hrodn : get_rod st (some n) = some (st.rods.getD jn (0, 0, 0)) := by
        simp [get_rod, hjn]
      have hflapn : get_flap_params st (some n) =
          some (st.flap_params.getD jn (0, 0, 0)) := by
        simp [get_flap_params, hjn]
      refine ⟨h1, ?_, ?_⟩
      · rw [show rerootResult st n (b :: t) = revUpd n ((get_rod st (some n)).getD (0, 0, 0))
          ((get_flap_params st (some n)).getD (0, 0, 0)) (b :: t) (setParent! st n n)
          from rfl, h2, hrodn]
        simp
      · rw [show rerootResult st n (b :: t) = revUpd n ((get_rod st (some n)).getD (0, 0, 0))
          ((get_flap_params st (some n)).getD (0, 0, 0)) (b :: t) (setParent! st n n)
          from rfl, h3, hflapn]
        simp
  | succ j =>
      simp only [List.get?_cons_succ] at ha hb
      have hmem' : ∀ m ∈ l, m ∈ nodesOf (setParent! st n n) := by
        intro m hm
        rw [nodesOf_setParent!]
        exact hmem m (List.mem_cons_of_mem _ hm)
      obtain ⟨h1, h2, h3⟩ := revUpd_pair l n ((get_rod st (some n)).getD (0, 0, 0))
        ((get_flap_params st (some n)).getD (0, 0, 0)) (setParent! st n n) hwf1
        (List.nodup_cons.mp hnd).2 hmem' j a b ha hb
      have ham : a ∈ nodesOf st := hmem a (List.mem_cons_of_mem _ (List.get?_mem ha))
      obtain ⟨ja, hja⟩ := findNode_isSome_of_mem ham
      have hroda : get_rod st (some a) = some (st.rods.getD ja (0, 0, 0)) := by
        simp [get_rod, hja]
      have hflapa : get_flap_params st (some a) =
          some (st.flap_params.getD ja (0, 0, 0)) := by
        simp [get_flap_params, hja]
      refine ⟨h1, ?_, ?_⟩
      · rw [show rerootResult st n l = revUpd n ((get_rod st (some n)).getD (0, 0, 0))
          ((get_flap_params st (some n)).getD (0, 0, 0)) l (setParent! st n n)
          from rfl, h2, get_rod_setParent!, hroda]
        simp
      · rw [show rerootResult st n l = revUpd n ((get_rod st (some n)).getD (0, 0, 0))
          ((get_flap_params st (some n)).getD (0, 0, 0)) l (setParent! st n n)
          from rfl, h3, get_flap_setParent!, hflapa]
        simp

end CrazySAR

namespace CrazySAR

/-! ### Closure of the validity invariant under rerooting -/

lemma adjacent_ne {L : List Int} (hnd : L.Nodup) {i : Nat} {a b : Int}
    (ha : L.get? i = some a) (hb : L.get? (i + 1) = some b) : a ≠ b := by
  intro h
  subst h
  have hi : i < L.length := (List.get?_eq_some.mp ha).1
  have heq : L[i]? = L[i + 1]? := by
    rw [← List.get?_eq_getElem?, ← List.get?_eq_getElem?, ha, hb]
  have := List.getElem?_inj hi hnd heq
  omega

lemma revSeg {st : SarState} {n : Int} {l : List Int}
    (hwf : Wf st) (hch : Chain st n (n :: l)) (hnd : (n :: l).Nodup) :
    ∀ i x, (n :: l).get? i = some x →
      Chain (rerootResult st n l) x (((n :: l).take (i + 1)).reverse) := by
  intro i
  induction i with
  | zero =>
      intro x hx
      simp only [List.get?_cons_zero] at hx
      obtain rfl : n = x := by injection hx
      have hnm : n ∈ nodesOf st := chain_mem_nodes hch n (List.mem_cons_self _ _)
      have hnl : n ∉ l := (List.nodup_cons.mp hnd).1
      exact Chain.root n (rerootResult_new_leader hnm hnl).1
  | succ i ih =>
      intro x hx
      have hi1 : i + 1 < (n :: l).length := (List.get?_eq_some.mp hx).1
      have hi : i < (n :: l).length := by omega
      obtain ⟨a, ha⟩ : ∃ a, (n :: l).get? i = some a := ⟨_, List.get?_eq_get hi⟩
      have hedge := (rerootResult_edges hwf hch hnd i a x ha hx).1
      have hax : a ≠ x := adjacent_ne hnd ha hx
      have hchF := ih a ha
      have htake : (n :: l).take (i + 1 + 1) = (n :: l).take (i + 1) ++ [x] := by
        rw [List.take_succ, ← List.get?_eq_getElem?, hx]
        rfl
      rw [htake, List.reverse_append]
      exact Chain.step x a _ hedge (Ne.symm hax) hchF

lemma chain_transfer {st : SarState} {n : Int} {l : List Int}
    (hv : ValidTopo st) (hch : Chain st n (n :: l)) (hnd : (n :: l).Nodup) :
    ∀ {x : Int} {m : List Int}, Chain st x m → m.Nodup →
      ∃ m', Chain (rerootResult st n l) x m' ∧ m'.Nodup ∧
        ∀ y ∈ m', y ∈ m ∨ y ∈ n :: l := by
  intro x m hchm
  induction hchm with
  | root a hp =>
      intro _
      have hrne : (n :: l) ≠ [] := List.cons_ne_nil _ _
      have hroot := chain_last hch hrne
      have hae : a = (n :: l).getLast hrne := hv.unique_root _ _ hp hroot
      have hamem : a ∈ n :: l := hae ▸ List.getLast_mem hrne
      obtain ⟨i, hi⟩ := List.mem_iff_get?.mp hamem
      refine ⟨((n :: l).take (i + 1)).reverse, revSeg hv.wf hch hnd i a hi, ?_, ?_⟩
      · rw [List.nodup_reverse]
        exact List.Nodup.sublist (List.take_sublist _ _) hnd
      · intro y hy
        right
        rw [List.mem_reverse] at hy
        exact List.take_subset _ _ hy
  | step a p m' hp hne hchm' ih =>
      intro hndm
      by_cases ha : a ∈ n :: l
      · obtain ⟨i, hi⟩ := List.mem_iff_get?.mp ha
        refine ⟨((n :: l).take (i + 1)).reverse, revSeg hv.wf hch hnd i a hi, ?_, ?_⟩
        · rw [List.nodup_reverse]
          exact List.Nodup.sublist (List.take_sublist _ _) hnd
        · intro y hy
          right
          rw [List.mem_reverse] at hy
          exact List.take_subset _ _ hy
      · obtain ⟨m'', hchF, hnd'', hsub⟩ := ih (List.Nodup.of_cons hndm)
        have hxn : a ≠ n := fun h => ha (h ▸ List.mem_cons_self _ _)
        have hxl : a ∉ l := fun h => ha (List.mem_cons_of_mem _ h)
        have hpF : get_parent (rerootResult st n l) (some a) = some p :=
          (rerootResult_frame a hxn hxl).1.trans hp
        have hanotm : a ∉ m'' := by
          intro hmem
          rcases hsub a hmem with h | h
          · exact (List.nodup_cons.mp hndm).1 h
          · exact ha h
        refine ⟨a :: m'', Chain.step a p m'' hpF hne hchF,
          List.nodup_cons.mpr ⟨hanotm, hnd''⟩, ?_⟩
        intro y hy
        rcases List.mem_cons.mp hy with rfl | hy'
        · left
          exact List.mem_cons_self _ _
        · rcases hsub y hy' with h | h
          · left
            exact List.mem_cons_of_mem _ h
          · right
            exact h

lemma rerooted_root_iff {st : SarState} {n : Int} {l : List Int}
    (hv : ValidTopo st) (hch : Chain st n (n :: l)) (hnd : (n :: l).Nodup) :
    ∀ x, get_parent (rerootResult st n l) (some x) = some x ↔ x = n := by
  intro x
  constructor
  · intro hx
    by_cases hxL : x ∈ n :: l
    · rcases List.mem_cons.mp hxL with rfl | hxl
      · rfl
      · obtain ⟨i, hi⟩ := List.mem_iff_get?.mp hxl
        have hi' : (n :: l).get? (i + 1) = some x := by simpa using hi
        have hii : i < (n :: l).length := by
          have h1 := (List.get?_eq_some.mp hi').1
          simp only [List.length_cons] at h1 ⊢
          omega
        obtain ⟨a, ha⟩ : ∃ a, (n :: l).get? i = some a := ⟨_, List.get?_eq_get hii⟩
        have hedge := (rerootResult_edges hv.wf hch hnd i a x ha hi').1
        have hax : a ≠ x := adjacent_ne hnd ha hi'
        rw [hx] at hedge
        have : x = a := by injection hedge
        exact absurd this.symm hax
    · have hxn : x ≠ n := fun h => hxL (h ▸ List.mem_cons_self _ _)
      have hxl : x ∉ l := fun h => hxL (List.mem_cons_of_mem _ h)
      rw [(rerootResult_frame x hxn hxl).1] at hx
      have hrne : (n :: l) ≠ [] := List.cons_ne_nil _ _
      have hroot := chain_last hch hrne
      have hxr : x = (n :: l).getLast hrne := hv.unique_root _ _ hx hroot
      exact absurd (hxr ▸ List.getLast_mem hrne) hxL
  · rintro rfl
    exact (rerootResult_new_leader (chain_mem_nodes hch _ (List.mem_cons_self _ _))
      (List.nodup_cons.mp hnd).1).1

lemma rerooted_valid {st : SarState} {n : Int} {l : List Int}
    (hv : ValidTopo st) (hch : Chain st n (n :: l)) (hnd : (n :: l).Nodup) :
    ValidTopo (rerootResult st n l) := by
  refine ⟨rerootResult_wf n l hv.wf, ?_, ?_⟩
  · intro x hx
    rw [rerootResult_nodes] at hx
    obtain ⟨m, hm, hmnd⟩ := hv.reach x hx
    obtain ⟨m', h1, h2, _⟩ := chain_transfer hv hch hnd hm hmnd
    exact ⟨m', h1, h2⟩
  · intro a b ha hb
    rw [rerooted_root_iff hv hch hnd a] at ha
    rw [rerooted_root_iff hv hch hnd b] at hb
    rw [ha, hb]

end CrazySAR

namespace CrazySAR

/-! ### The leader no-op and the explicit three-node chain -/

lemma set_leader_leader {st : SarState} {L : Int} (hfl : find_leader st = some L)
    (fuel : Nat) : set_leader fuel st L = .ok st := by
  simp [set_leader, hfl]

lemma negRod_negRod (r : Rod) : negRod (negRod r) = r := by
  obtain ⟨x, y, z⟩ := r
  simp [negRod]

lemma flipFlap_flipFlap (f : Flap) : flipFlap (flipFlap f) = f := by
  obtain ⟨x, y, z⟩ := f
  simp [flipFlap]

lemma set_leader_three_first {A B C : Int} (a b c : Rod) (fa fb fc : Flap)
    (hAB : A ≠ B) (hBC : B ≠ C) (hAC : A ≠ C) :
    set_leader 4 ⟨[(A, B), (B, C), (C, C)], [a, b, c], [fa, fb, fc]⟩ A =
      .ok ⟨[(A, A), (B, A), (C, B)], [a, negRod a, negRod b],
        [fa, flipFlap fa, flipFlap fb]⟩ := by
  simp [set_leader, find_leader, find_leader_go, findNode, get_parent, set_parent,
    get_rod, set_and_flip_rod, get_flap_params, set_and_flip_flap_params, slLoop,
    hAB, hBC, hAC, Ne.symm hAB, Ne.symm hBC, Ne.symm hAC,
    List.set_cons_zero, List.set_cons_succ]

lemma set_leader_three_second {A B C : Int} (a b c : Rod) (fa fb fc : Flap)
    (hAB : A ≠ B) (hBC : B ≠ C) (hAC : A ≠ C) :
    set_leader 4 ⟨[(A, A), (B, A), (C, B)], [a, b, c], [fa, fb, fc]⟩ C =
      .ok ⟨[(A, B), (B, C), (C, C)], [negRod b, negRod c, c],
        [flipFlap fb, flipFlap fc, fc]⟩ := by
  simp [set_leader, find_leader, find_leader_go, findNode, get_parent, set_parent,
    get_rod, set_and_flip_rod, get_flap_params, set_and_flip_flap_params, slLoop,
    hAB, hBC, hAC, Ne.symm hAB, Ne.symm hBC, Ne.symm hAC,
    List.set_cons_zero, List.set_cons_succ]

end CrazySAR

namespace CrazySAR

/-! ### Concrete stores for witnesses and counterexamples -/

/-- The spec's worked scenario: topology `{1:1 (leader), 2:1, 3:2}`,
`rod(2)=[1,0,0]`, `rod(3)=[0,1,0]` (flap values chosen integral so
that kernel evaluation stays within structural reduction). -/
def scenarioState : SarState :=
  ⟨[(1, 1), (2, 1), (3, 2)], [(0, 0, 0), (1, 0, 0), (0, 1, 0)],
    [(0, 0, 0), (1, 2, 0), (1, 3, 0)]⟩

/-- The store `set_leader` produces from the scenario when rerooting
to node 3 (checked below against the execution). -/
def scenarioRerooted : SarState :=
  ⟨[(1, 2), (2, 3), (3, 3)], [(-1, 0, 0), (0, -1, 0), (0, 1, 0)],
    [(1, -2, 0), (1, -3, 0), (1, 3, 0)]⟩

/-- The scenario extended with an off-path node 4 under the root. -/
def scenarioState4 : SarState :=
  ⟨[(1, 1), (2, 1), (3, 2), (4, 1)],
    [(0, 0, 0), (1, 0, 0), (0, 1, 0), (2, 0, 0)],
    [(0, 0, 0), (1, 2, 0), (1, 3, 0), (1, 1, 0)]⟩

/-- A three-node chain 1 → 2 → 3 with 3 the leader and distinct
rod/flap values everywhere. -/
def chainABC : SarState :=
  ⟨[(1, 2), (2, 3), (3, 3)], [(1, 0, 0), (0, 1, 0), (0, 0, 1)],
    [(1, 1, 0), (1, 2, 0), (1, 3, 0)]⟩

/-- The chain store after rerooting to 1. -/
def chainABC_mid : SarState :=
  ⟨[(1, 1), (2, 1), (3, 2)], [(1, 0, 0), (-1, 0, 0), (0, -1, 0)],
    [(1, 1, 0), (1, -1, 0), (1, -2, 0)]⟩

/-- The chain store after rerooting to 1 and then back to 3. -/
def chainABC_final : SarState :=
  ⟨[(1, 2), (2, 3), (3, 3)], [(1, 0, 0), (0, 1, 0), (0, -1, 0)],
    [(1, 1, 0), (1, 2, 0), (1, -2, 0)]⟩

lemma scenario_chain3 : Chain scenarioState 3 [3, 2, 1] :=
  Chain.step 3 2 [2, 1] (by decide) (by decide)
    (Chain.step 2 1 [1] (by decide) (by decide) (Chain.root 1 (by decide)))

lemma scenario4_chain3 : Chain scenarioState4 3 [3, 2, 1] :=
  Chain.step 3 2 [2, 1] (by decide) (by decide)
    (Chain.step 2 1 [1] (by decide) (by decide) (Chain.root 1 (by decide)))

lemma scenario_root {x : Int} (hx : get_parent scenarioState (some x) = some x) :
    x = 1 := by
  have hxm : x = 1 ∨ x = 2 ∨ x = 3 := by
    simpa [scenarioState, nodesOf] using mem_of_get_parent hx
  rcases hxm with rfl | rfl | rfl
  · rfl
  · exact absurd hx (by decide)
  · exact absurd hx (by decide)

lemma validTopo_scenario : ValidTopo scenarioState := by
  refine ⟨⟨by decide, by decide, by decide⟩, ?_, ?_⟩
  · intro m hm
    have hm' : m = 1 ∨ m = 2 ∨ m = 3 := by
      simpa [scenarioState, nodesOf] using hm
    rcases hm' with rfl | rfl | rfl
    · exact ⟨[1], Chain.root 1 (by decide), by decide⟩
    · exact ⟨[2, 1], Chain.step 2 1 [1] (by decide) (by decide)
        (Chain.root 1 (by decide)), by decide⟩
    · exact ⟨[3, 2, 1], scenario_chain3, by decide⟩
  · exact fun a b ha hb => (scenario_root ha).trans (scenario_root hb).symm

lemma scenario4_root {x : Int} (hx : get_parent scenarioState4 (some x) = some x) :
    x = 1 := by
  have hxm : x = 1 ∨ x = 2 ∨ x = 3 ∨ x = 4 := by
    simpa [scenarioState4, nodesOf] using mem_of_get_parent hx
  rcases hxm with rfl | rfl | rfl | rfl
  · rfl
  · exact absurd hx (by decide)
  · exact absurd hx (by decide)
  · exact absurd hx (by decide)

lemma validTopo_scenario4 : ValidTopo scenarioState4 := by
  refine ⟨⟨by decide, by decide, by decide⟩, ?_, ?_⟩
  · intro m hm
    have hm' : m = 1 ∨ m = 2 ∨ m = 3 ∨ m = 4 := by
      simpa [scenarioState4, nodesOf] using hm
    rcases hm' with rfl | rfl | rfl | rfl
    · exact ⟨[1], Chain.root 1 (by decide), by decide⟩
    · exact ⟨[2, 1], Chain.step 2 1 [1] (by decide) (by decide)
        (Chain.root 1 (by decide)), by decide⟩
    · exact ⟨[3, 2, 1], scenario4_chain3, by decide⟩
    · exact ⟨[4, 1], Chain.step 4 1 [1] (by decide) (by decide)
        (Chain.root 1 (by decide)), by decide⟩
  · exact fun a b ha hb => (scenario4_root ha).trans (scenario4_root hb).symm

end CrazySAR

namespace CrazySAR

/-! ### Claim theorems -/

/-- C1 (counterexample to the claim as stated): on the spec's own
scenario, rerooting to node 3 does give `parent(3) = 3`, but node 3's
rod stays at its old value `[0,1,0]` (not the zero sentinel) and its
flap keeps amplitude 3/10 (not zero): `set_leader` never writes the
new leader's rod or flap entries. -/
theorem claim_C1_counterexample :
    set_leader 10 scenarioState 3 = .ok scenarioRerooted ∧
    get_parent scenarioRerooted (some 3) = some 3 ∧
    get_rod scenarioRerooted (some 3) = some (0, 1, 0) ∧
    ¬ get_rod scenarioRerooted (some 3) = some (0, 0, 0) ∧
    get_flap_params scenarioRerooted (some 3) = some (1, 3, 0) ∧
    ¬ get_flap_params scenarioRerooted (some 3) = some (1, 0, 0) := by
  refine ⟨by decide, by decide, by decide, by decide, by decide, by decide⟩

/-- C1 (amended): for every valid topology and every non-leader node n
present in it (with parent chain n :: l to the old leader), rerooting
to n makes n its own parent, and n's own rod and flap entries are left
exactly as they were — they are not replaced by a zero sentinel. -/
theorem claim_C1 {st : SarState} {n : Int} {l : List Int} {fuel : Nat}
    (hv : ValidTopo st) (hch : Chain st n (n :: l)) (hnd : (n :: l).Nodup)
    (hl : l ≠ []) (hfuel : l.length + 1 ≤ fuel) :
    ∃ F, set_leader fuel st n = .ok F ∧
      get_parent F (some n) = some n ∧
      get_rod F (some n) = get_rod st (some n) ∧
      get_flap_params F (some n) = get_flap_params st (some n) := by
  have hfl : find_leader st = some ((n :: l).getLast (List.cons_ne_nil n l)) :=
    find_leader_eq hv (chain_last hch (List.cons_ne_nil n l))
  obtain ⟨h1, h2, h3⟩ := rerootResult_new_leader
    (chain_mem_nodes hch n (List.mem_cons_self _ _)) (List.nodup_cons.mp hnd).1
  exact ⟨rerootResult st n l, set_leader_run hch hnd hl hfl hfuel, h1, h2, h3⟩

/-- C1 witness: the amended theorem applied to the scenario, rerooting
to node 3. -/
theorem claim_C1_witness :
    ∃ F, set_leader 10 scenarioState 3 = .ok F ∧
      get_parent F (some 3) = some 3 ∧
      get_rod F (some 3) = get_rod scenarioState (some 3) ∧
      get_flap_params F (some 3) = get_flap_params scenarioState (some 3) :=
  claim_C1 validTopo_scenario scenario_chain3 (by decide) (by decide) (by decide)

/-- C2: for every valid topology and non-leader node n with parent
chain n :: l to the old leader, rerooting to n reverses every edge on
the chain; for each adjacent pair (a, b) of the chain the former
parent b now points to a, b's new rod is the negation of a's
pre-mutation rod, and b's new flap is (frequency, -amplitude, phase)
of a's pre-mutation flap. -/
theorem claim_C2 {st : SarState} {n : Int} {l : List Int} {fuel : Nat}
    (hv : ValidTopo st) (hch : Chain st n (n :: l)) (hnd : (n :: l).Nodup)
    (hl : l ≠ []) (hfuel : l.length + 1 ≤ fuel) :
    ∃ F, set_leader fuel st n = .ok F ∧
      get_parent F (some n) = some n ∧
      ∀ i a b, (n :: l).get? i = some a → (n :: l).get? (i + 1) = some b →
        get_parent F (some b) = some a ∧
        get_rod F (some b) = (get_rod st (some a)).map negRod ∧
        get_flap_params F (some b) = (get_flap_params st (some a)).map flipFlap := by
  have hfl : find_leader st = some ((n :: l).getLast (List.cons_ne_nil n l)) :=
    find_leader_eq hv (chain_last hch (List.cons_ne_nil n l))
  exact ⟨rerootResult st n l, set_leader_run hch hnd hl hfl hfuel,
    (rerootResult_new_leader (chain_mem_nodes hch n (List.mem_cons_self _ _))
      (List.nodup_cons.mp hnd).1).1,
    rerootResult_edges hv.wf hch hnd⟩

/-- C2 witness: the reversal theorem applied to the spec's scenario
(chain 3 :: [2, 1]). -/
theorem claim_C2_witness :
    ∃ F, set_leader 10 scenarioState 3 = .ok F ∧
      get_parent F (some 3) = some 3 ∧
      ∀ i a b, [3, 2, 1].get? i = some a → [3, 2, 1].get? (i + 1) = some b →
        get_parent F (some b) = some a ∧
        get_rod F (some b) = (get_rod scenarioState (some a)).map negRod ∧
        get_flap_params F (some b) =
          (get_flap_params scenarioState (some a)).map flipFlap :=
  claim_C2 validTopo_scenario scenario_chain3 (by decide) (by decide) (by decide)

/-- C3: rerooting a valid topology to any present node preserves the
invariant: the result has exactly one self-parenting node (the new
leader) and every node still reaches it along a cycle-free parent
chain. -/
theorem claim_C3 {st : SarState} {n : Int} {fuel : Nat}
    (hv : ValidTopo st) (hn : n ∈ nodesOf st)
    (hfuel : st.graph.length + 1 ≤ fuel) :
    ∃ F, set_leader fuel st n = .ok F ∧ ValidTopo F ∧
      (∀ x, get_parent F (some x) = some x ↔ x = n) := by
  obtain ⟨m, hm, hmnd⟩ := hv.reach n hn
  obtain ⟨t, rfl⟩ := chain_head hm
  by_cases ht : t = []
  · subst ht
    have hroot : get_parent st (some n) = some n := by
      cases hm with
      | root _ hp => exact hp
      | step _ p l' hp hne hch' => cases hch'
    have hfl : find_leader st = some n := find_leader_eq hv hroot
    refine ⟨st, set_leader_leader hfl fuel, hv, fun x => ⟨?_, ?_⟩⟩
    · intro hx
      exact hv.unique_root x n hx hroot
    · rintro rfl
      exact hroot
  · have hlen : t.length + 1 ≤ fuel := by
      have hsub : (n :: t) ⊆ nodesOf st := fun y hy => chain_mem_nodes hm y hy
      have hle := (List.subperm_of_subset hmnd hsub).length_le
      simp only [List.length_cons, nodesOf, List.length_map] at hle
      omega
    have hfl := find_leader_eq hv (chain_last hm (List.cons_ne_nil n t))
    exact ⟨rerootResult st n t, set_leader_run hm hmnd ht hfl hlen,
      rerooted_valid hv hm hmnd, rerooted_root_iff hv hm hmnd⟩

/-- C3 witness: closure on the scenario when rerooting to node 3. -/
theorem claim_C3_witness :
    ∃ F, set_leader 10 scenarioState 3 = .ok F ∧ ValidTopo F ∧
      (∀ x, get_parent F (some x) = some x ↔ x = 3) :=
  claim_C3 validTopo_scenario (by decide) (by decide)

/-- C4 (counterexample to the claim as stated): on the chain
1 → 2 → 3 with leader 3, rerooting to 1 and back to 3 restores the
parent pointers and the rod/flap entries of nodes 1 and 2, but node
3's rod ends as [0,-1,0] instead of its original [0,0,1], and its
flap amplitude ends as -2 instead of 3 — the double reroot is not an
involution on the leader's own rod and flap. -/
theorem claim_C4_counterexample :
    set_leader 4 chainABC 1 = .ok chainABC_mid ∧
    set_leader 4 chainABC_mid 3 = .ok chainABC_final ∧
    chainABC_final.graph = chainABC.graph ∧
    ¬ get_rod chainABC_final (some 3) = get_rod chainABC (some 3) ∧
    ¬ get_flap_params chainABC_final (some 3) = get_flap_params chainABC (some 3) := by
  refine ⟨by decide, by decide, by decide, by decide, by decide⟩

/-- C4 (amended): for every three-node chain A → B → C with C the
leader and arbitrary rod/flap values, rerooting to A and then back to
C restores all parent pointers and the rod and flap values of A and
B exactly; C's own rod becomes the negation of B's original rod and
C's own flap the amplitude-flip of B's original flap (they are
restored only if they already had those values). -/
theorem claim_C4 {A B C : Int} (a b c : Rod) (fa fb fc : Flap)
    (hAB : A ≠ B) (hBC : B ≠ C) (hAC : A ≠ C) :
    ∃ F, set_leader 4 ⟨[(A, B), (B, C), (C, C)], [a, b, c], [fa, fb, fc]⟩ A = .ok F ∧
      set_leader 4 F C =
        .ok ⟨[(A, B), (B, C), (C, C)], [a, b, negRod b], [fa, fb, flipFlap fb]⟩ := by
  refine ⟨_, set_leader_three_first a b c fa fb fc hAB hBC hAC, ?_⟩
  rw [set_leader_three_second a (negRod a) (negRod b) fa (flipFlap fa) (flipFlap fb)
    hAB hBC hAC]
  rw [negRod_negRod, negRod_negRod, flipFlap_flipFlap, flipFlap_flipFlap]

/-- C4 witness: the amended double-reroot theorem on the concrete
chain 1 → 2 → 3. -/
theorem claim_C4_witness :
    ∃ F, set_leader 4 ⟨[(1, 2), (2, 3), (3, 3)],
        [(1, 0, 0), (0, 1, 0), (0, 0, 1)],
        [(1, 1, 0), (1, 2, 0), (1, 3, 0)]⟩ 1 = .ok F ∧
      set_leader 4 F 3 =
        .ok ⟨[(1, 2), (2, 3), (3, 3)],
          [(1, 0, 0), (0, 1, 0), negRod (0, 1, 0)],
          [(1, 1, 0), (1, 2, 0), flipFlap (1, 2, 0)]⟩ :=
  claim_C4 (1, 0, 0) (0, 1, 0) (0, 0, 1) (1, 1, 0) (1, 2, 0) (1, 3, 0)
    (by decide) (by decide) (by decide)

/-- C5 (counterexample to the claim as stated): rerooting the
scenario to the absent node id 99 does not terminate (so no
UnknownNodeError-style failure is ever raised): the embedded run
times out at every fuel bound. -/
theorem claim_C5_counterexample :
    ¬ ∃ fuel out, set_leader fuel scenarioState 99 = out ∧ out ≠ PyOutcome.timeout := by
  rintro ⟨fuel, out, heq, hne⟩
  exact hne (heq.symm.trans (set_leader_absent (r := 1) (by decide) (by decide) fuel))

/-- C5 (amended): for every topology with a leader and every node id
x absent from it, `set_leader` to x never raises and never returns:
every lookup of x misses, every write is a no-op, the loop variables
stay at None, and the while condition never becomes true, so the walk
runs forever (times out at every fuel bound) with the store untouched. -/
theorem claim_C5 {st : SarState} {r x : Int}
    (hfl : find_leader st = some r) (hx : x ∉ nodesOf st) (fuel : Nat) :
    set_leader fuel st x = .timeout :=
  set_leader_absent hfl hx fuel

/-- C5 witness: the divergence theorem at fuel 5 on the scenario. -/
theorem claim_C5_witness : set_leader 5 scenarioState 99 = .timeout :=
  claim_C5 (r := 1) (by decide) (by decide) 5

/-- C6 (counterexample to the claim as stated): encoding node id 16
does not fail — it silently masks to the same word as node id 0
(decoding the word shows node field 0), and a rod component of 128
silently wraps to the same word as -128; no EncodingRangeError exists
in the code. -/
theorem claim_C6_counterexample :
    config_word 16 2 (1, 2, 3) = config_word 0 2 (1, 2, 3) ∧
    decode_word (config_word 16 2 (1, 2, 3)) = (0, 2, (1, 0, 0)) ∧
    config_word 1 2 (128, 0, 0) = config_word 1 2 (-128, 0, 0) := by
  refine ⟨by decide, by decide, by decide⟩

/-- C6 (amended): under the legacy-numpy semantics the code runs
with, the encoder never rejects: node and parent ids are silently
masked to their low 4 bits and rod components silently wrapped modulo
256 before packing, so any out-of-range value encodes as its masked
residue (independently, the int16 intermediates wipe the rod.y/z
fields and can sign-extend into bits 16-31 — silent corruption, never
an EncodingRangeError; under NumPy >= 2 the expression raises
OverflowError for in-range values too, still not an
EncodingRangeError). -/
theorem claim_C6 (node parent : Int) (rod : Rod) :
    config_word node parent rod =
      config_word (node % 16) (parent % 16)
        (rod.1 % 256, rod.2.1 % 256, rod.2.2 % 256) := by
  obtain ⟨x, y, z⟩ := rod
  dsimp only
  rw [config_word_eq, config_word_eq,
    Int.emod_emod_of_dvd x (dvd_refl 256),
    Int.emod_emod_of_dvd node (dvd_refl 16),
    Int.emod_emod_of_dvd parent (dvd_refl 16)]

/-- C7 (code bug, evaluated at the failing input): at node id 3,
parent id 2, rod (1, 2, 3) — all within the claimed ranges — the word
the program computes is 0x123: the rod.y and rod.z fields are
truncated away by the int16 intermediates, so decoding recovers rod
(1, 0, 0) instead of (1, 2, 3); and with rod.x = -1 (byte 255) the
sign extension of the final np.uint32 cast overwrites bits 16-31,
decoding as rod (-1, -1, -1).  The field-by-field structure of the
source expression shows the claimed layout is the intent; the int16
promotion silently destroying it is the bug. -/
theorem claim_C7 :
    config_word 3 2 (1, 2, 3) = 291 ∧
    decode_word (config_word 3 2 (1, 2, 3)) = (3, 2, (1, 0, 0)) ∧
    ¬ decode_word (config_word 3 2 (1, 2, 3)) = (3, 2, (1, 2, 3)) ∧
    decode_word (config_word 3 2 (-1, 2, 3)) = (3, 2, (-1, -1, -1)) := by
  refine ⟨by decide, by decide, by decide, by decide⟩

/-- C8: rerooting to the node that already is the leader is a no-op:
the guard returns before any mutation, so the whole store (parents,
rods, flaps) is returned unchanged. -/
theorem claim_C8 {st : SarState} {L : Int}
    (hfl : find_leader st = some L) (fuel : Nat) :
    set_leader fuel st L = .ok st :=
  set_leader_leader hfl fuel

/-- C8 witness: rerooting the scenario to its leader 1 returns the
store unchanged. -/
theorem claim_C8_witness : set_leader 7 scenarioState 1 = .ok scenarioState :=
  claim_C8 (by decide) 7

/-- C10: rerooting a valid topology to a non-leader node n with
parent chain n :: l mutates only the chain: every node off the chain
keeps its parent pointer, rod vector and flap parameters exactly. -/
theorem claim_C10 {st : SarState} {n : Int} {l : List Int} {fuel : Nat}
    (hv : ValidTopo st) (hch : Chain st n (n :: l)) (hnd : (n :: l).Nodup)
    (hl : l ≠ []) (hfuel : l.length + 1 ≤ fuel) :
    ∃ F, set_leader fuel st n = .ok F ∧
      ∀ x, x ∉ n :: l →
        get_parent F (some x) = get_parent st (some x) ∧
        get_rod F (some x) = get_rod st (some x) ∧
        get_flap_params F (some x) = get_flap_params st (some x) := by
  have hfl : find_leader st = some ((n :: l).getLast (List.cons_ne_nil n l)) :=
    find_leader_eq hv (chain_last hch (List.cons_ne_nil n l))
  refine ⟨rerootResult st n l, set_leader_run hch hnd hl hfl hfuel, ?_⟩
  intro x hx
  exact rerootResult_frame x (fun h => hx (h ▸ List.mem_cons_self _ _))
    (fun h => hx (List.mem_cons_of_mem _ h))

/-- C10 witness: rerooting the four-node store to 3 leaves the
off-path node 4 fully unchanged. -/
theorem claim_C10_witness :
    ∃ F, set_leader 10 scenarioState4 3 = .ok F ∧
      ∀ x, x ∉ [3, 2, 1] →
        get_parent F (some x) = get_parent scenarioState4 (some x) ∧
        get_rod F (some x) = get_rod scenarioState4 (some x) ∧
        get_flap_params F (some x) = get_flap_params scenarioState4 (some x) :=
  claim_C10 validTopo_scenario4 scenario4_chain3 (by decide) (by decide) (by decide)

end CrazySAR
